import Mathlib

/-!
Verification development for the ShelfDB storage engine.

This file shallowly embeds the storage engine of the repository
(`src/storage.ts`, `src/utils.ts`, the query handler of `src/server.ts`)
into Lean and proves properties of the embedded definitions.

Modelling conventions, stated once:
* JSON-compatible values are the inductive `JVal`.  Numbers are modelled as
  integers (`Int`); no claim under study depends on fractional document
  field values.  JavaScript objects are association lists in property
  insertion order with unique keys maintained by the update operations,
  mirroring the insertion-order iteration of string-keyed JS objects.
* ISO-8601 timestamp strings produced by a monotone clock are order-isomorphic
  to the clock's tick values; they are modelled as natural-number ticks stored
  as `JVal.num`.  Generated uuids and clock readings are passed to the
  operations as explicit arguments.
* `===` between a value taken from the database state and a freshly
  `JSON.parse`d value is structural equality on primitives and always false
  on objects and arrays (a freshly parsed value is a fresh heap reference).
* `JSON.parse`/`Number(...)` of externally supplied strings is external
  input; a parameter of the model carries the parse outcome.
-/

inductive JVal where
  | str : String → JVal
  | num : Int → JVal
  | bool : Bool → JVal
  | null : JVal
  | arr : List JVal → JVal
  | obj : List (String × JVal) → JVal

abbrev Obj := List (String × JVal)

/-- First-match association-list lookup: `o[k]`, `none` meaning `undefined`. -/
def lookupA {α : Type} : List (String × α) → String → Option α
  | [], _ => none
  | p :: rest, key => if p.1 = key then some p.2 else lookupA rest key

/-- JS property assignment `o[k] = v`: replaces the value in place when the
key is present (keeping its position) and appends the key otherwise. -/
def setA {α : Type} (o : List (String × α)) (k : String) (v : α) : List (String × α) :=
  if o.any (fun p => p.1 = k) then o.map (fun p => if p.1 = k then (k, v) else p)
  else o ++ [(k, v)]

/-- JS `delete o[k]`. -/
def removeA {α : Type} (o : List (String × α)) (k : String) : List (String × α) :=
  o.filter (fun p => ¬ p.1 = k)

/-- The keys of an object, in insertion order. -/
def keysA {α : Type} (o : List (String × α)) : List String := o.map (fun p => p.1)

/-- Object spread `\x7b...a, ...b\x7d`: the entries of `b` assigned over `a`
in order. -/
def spreadA (a b : Obj) : Obj := b.foldl (fun o p => setA o p.1 p.2) a

/-- `isObject` from `src/utils.ts`: a plain object — not an array, not null,
not a scalar. -/
def isObject : JVal → Bool
  | .obj _ => true
  | _ => false

mutual

/-- `deepMerge` from `src/utils.ts`: for each entry of `b` in order, recurse
when both the incoming value and the current value at the key are plain
objects, otherwise assign the incoming value.  (The `undefined`-skipping
branch of the source has no counterpart: `undefined` does not occur in
JSON-compatible values.) -/
def deepMerge : Obj → Obj → Obj
  | a, [] => a
  | a, (k, v) :: rest => deepMerge (deepMergeEntry a k v) rest

def deepMergeEntry (a : Obj) (k : String) : JVal → Obj
  | JVal.obj bo =>
    match lookupA a k with
    | some (JVal.obj ao) => setA a k (JVal.obj (deepMerge ao bo))
    | _ => setA a k (JVal.obj bo)
  | v => setA a k v

end

/-- Escape of `"` and `\` when serializing a string (control-character
escapes, which no claim exercises, are not modelled). -/
def escJson (s : String) : String :=
  s.data.foldl
    (fun acc c =>
      if c = '"' then acc ++ "\\\""
      else if c = '\\' then acc ++ "\\\\" else acc.push c)
    ""

mutual

/-- `JSON.stringify` on the value model. -/
def jsonStringify : JVal → String
  | .str s => "\"" ++ escJson s ++ "\""
  | .num n => toString n
  | .bool true => "true"
  | .bool false => "false"
  | .null => "null"
  | .arr xs => "[" ++ stringifyArr xs ++ "]"
  | .obj fs => "\x7b" ++ stringifyObj fs ++ "\x7d"

def stringifyArr : List JVal → String
  | [] => ""
  | [x] => jsonStringify x
  | x :: y :: xs => jsonStringify x ++ "," ++ stringifyArr (y :: xs)

def stringifyObj : List (String × JVal) → String
  | [] => ""
  | [(k, v)] => "\"" ++ escJson k ++ "\":" ++ jsonStringify v
  | (k, v) :: p :: fs =>
    "\"" ++ escJson k ++ "\":" ++ jsonStringify v ++ "," ++ stringifyObj (p :: fs)

end

/-- `s.includes(pat)` on strings. -/
def containsSub (s pat : String) : Bool :=
  if pat = "" then true else (s.splitOn pat).length ≥ 2

/-- Structural equality of primitive values; values of reference type
(objects, arrays) compare unequal, see the module conventions on `===`. -/
def primEq : JVal → JVal → Bool
  | .str a, .str b => a = b
  | .num a, .num b => a = b
  | .bool a, .bool b => a = b
  | .null, .null => true
  | _, _ => false

/-- `doc[k] === v` where `doc[k]` may be `undefined` and `v` was freshly
parsed from JSON. -/
def strictEqParsed : Option JVal → JVal → Bool
  | none, _ => false
  | some a, v => primEq a v

/-- `Object.entries` as used on a `JSON.parse` result: fields of an object,
index/element pairs of an array, index/character pairs of a string, the
empty list for numbers and booleans, and `none` for `null` (on which
`Object.entries` throws). -/
def jsEntries : JVal → Option (List (String × JVal))
  | .obj fs => some fs
  | .arr xs => some ((xs.enum).map (fun p => (toString p.1, p.2)))
  | .str s => some ((s.data.enum).map (fun p => (toString p.1, JVal.str (String.singleton p.2))))
  | .num _ => some []
  | .bool _ => some []
  | .null => none

/-- The parse outcome of the query string `q`: absent or empty (falsy),
JSN parse failure, or a parsed value. -/
inductive QParse where
  | noQ : QParse
  | parseFail (raw : String) : QParse
  | parsed (v : JVal) : QParse

/-- `filterByQuery` from `src/utils.ts`.  A falsy `q` matches everything;
a parsed value is treated as a key/value conjunction over its entries
(an exception from `Object.entries`, i.e. a parsed `null`, falls through
to the substring branch with the raw text `"null"`); a parse failure does a
case-insensitive substring match against the serialized document. -/
def filterByQuery (doc : Obj) (q : QParse) : Bool :=
  match q with
  | .noQ => true
  | .parseFail raw =>
    containsSub (jsonStringify (JVal.obj doc)).toLower raw.toLower
  | .parsed v =>
    match jsEntries v with
    | some entries => entries.all (fun p => strictEqParsed (lookupA doc p.1) p.2)
    | none => containsSub (jsonStringify (JVal.obj doc)).toLower "null"

example : deepMerge [("a", JVal.obj [("x", JVal.num 1)])] [("a", JVal.obj [("y", JVal.num 2)])]
    = [("a", JVal.obj [("x", JVal.num 1), ("y", JVal.num 2)])] := by rfl

example : deepMerge [("a", JVal.obj [("x", JVal.num 1)])] [("a", JVal.null)]
    = [("a", JVal.null)] := by rfl

/-- `parseSort` from `src/utils.ts`: a falsy sort string yields no sorting;
otherwise the text before the first `:` is the field and the direction is
`-1` exactly when the part after `:` equals `"desc"`. -/
def parseSort : Option String → Option (String × Int)
  | none => none
  | some s =>
    if s = "" then none
    else
      let parts := s.splitOn ":"
      some (parts.headD "", if parts.getD 1 "" = "desc" then -1 else 1)

/-- The comparator's `va > vb` on field values: numeric and string
comparisons; comparisons involving `undefined` or mixed/reference types
yield `false` (string-to-number coercion of mixed operands is not
modelled; no claim exercises it). -/
def sortGT : Option JVal → Option JVal → Bool
  | some (.num a), some (.num b) => b < a
  | some (.str a), some (.str b) => b < a
  | _, _ => false

/-- `va === vb` between two field values drawn from the state
(`undefined === undefined` is true). -/
def strictEqV : Option JVal → Option JVal → Bool
  | none, none => true
  | some a, some b => primEq a b
  | _, _ => false

/-- The sort comparator of `ShelfDB.query`. -/
def sortCmp (field : String) (dir : Int) (a b : Obj) : Int :=
  let va := lookupA a field
  let vb := lookupA b field
  if strictEqV va vb then 0 else if sortGT va vb then dir else -dir

/-- `items.sort(comparator)`: V8's sort is stable, modelled by a stable
insertion sort keeping `a` before `b` whenever `comparator(a,b) <= 0`. -/
def sortDocs (field : String) (dir : Int) (items : List Obj) : List Obj :=
  List.insertionSort (fun a b => sortCmp field dir a b ≤ 0) items

/-- A JavaScript number as it can reach the pagination code: `NaN`,
an infinity, or a finite exact value `num / (d+1)`. -/
inductive JSNum where
  | nan
  | posInf
  | negInf
  | fin (num : Int) (d : Nat)

/-- `Number.isFinite`. -/
def JSNum.isFinite : JSNum → Bool
  | .fin _ _ => true
  | _ => false

/-- `x < 0` on a JS number (`NaN < 0` is false). -/
def JSNum.ltZero : JSNum → Bool
  | .fin num _ => num < 0
  | .negInf => true
  | _ => false

/-- JS addition, as used in `offset + limit`. -/
def jsAdd : JSNum → JSNum → JSNum
  | .nan, _ => .nan
  | _, .nan => .nan
  | .posInf, .negInf => .nan
  | .negInf, .posInf => .nan
  | .posInf, _ => .posInf
  | _, .posInf => .posInf
  | .negInf, _ => .negInf
  | _, .negInf => .negInf
  | .fin a da, .fin b db => .fin (a * (db + 1) + b * (da + 1)) ((da + 1) * (db + 1) - 1)

/-- Truncation toward zero of the finite value `num / (d+1)`. -/
def truncFin (num : Int) (d : Nat) : Int :=
  if num < 0 then -(((-num).toNat / (d + 1) : Nat) : Int)
  else ((num.toNat / (d + 1) : Nat) : Int)

/-- `Array.prototype.slice` index resolution (ToIntegerOrInfinity followed
by the relative-index clamp): `NaN` maps to `0`, negative values count from
the end, and everything is clamped into `[0, len]`. -/
def jsSliceIdx (len : Nat) : JSNum → Nat
  | .nan => 0
  | .posInf => len
  | .negInf => 0
  | .fin num d =>
    let k := truncFin num d
    if k < 0 then (len + k).toNat else min k.toNat len

/-- `l.slice(start, finish)`. -/
def jsSlice {α : Type} (l : List α) (start finish : JSNum) : List α :=
  let lo := jsSliceIdx l.length start
  let hi := jsSliceIdx l.length finish
  (l.take hi).drop lo

abbrev Collection := List (String × Obj)
abbrev DBState := List (String × Collection)

/-- `this.state.collections[collection] || \x7b\x7d`. -/
def getCol (s : DBState) (c : String) : Collection := (lookupA s c).getD []

/-- `this.get(collection, id)`. -/
def getDoc (s : DBState) (c id : String) : Option Obj := lookupA (getCol s c) id

/-- `QueryOptions` from `src/types.ts` (the `q` string replaced by its parse
outcome, see the module conventions). -/
structure QueryOpts where
  q : QParse := .noQ
  limit : Option JSNum := none
  offset : Option JSNum := none
  sort : Option String := none

structure QueryResult where
  total : Nat
  items : List Obj

/-- `ShelfDB.query` from `src/storage.ts`: filter, count, sort, then slice
`[offset, offset + limit)` with defaults `offset = 0`, `limit = 100`. -/
def ShelfDB.query (s : DBState) (c : String) (opts : QueryOpts) : QueryResult :=
  let col := getCol s c
  let items := (col.map (fun p => p.2)).filter (fun d => filterByQuery d opts.q)
  let total := items.length
  let sorted :=
    match parseSort opts.sort with
    | none => items
    | some fd => sortDocs fd.1 fd.2 items
  let off := opts.offset.getD (.fin 0 0)
  let lim := opts.limit.getD (.fin 100 0)
  ⟨total, jsSlice sorted off (jsAdd off lim)⟩

/-- The `GET /db/:collection` parameters of `src/server.ts` after the
`Number(...)` conversions (a missing or empty `limit`/`offset` string is
`none`). -/
structure RawParams where
  q : QParse := .noQ
  limit : Option JSNum := none
  offset : Option JSNum := none
  sort : Option String := none

/-- The `GET /db/:collection` handler of `src/server.ts`: rejects a supplied
non-finite or negative `limit`, then likewise `offset`, then calls
`db.query`. -/
def serverQuery (s : DBState) (c : String) (p : RawParams) : Except String QueryResult :=
  if p.limit.elim false (fun n => (!n.isFinite || n.ltZero)) then .error "Invalid limit"
  else if p.offset.elim false (fun n => (!n.isFinite || n.ltZero)) then .error "Invalid offset"
  else .ok (ShelfDB.query s c ⟨p.q, p.limit, p.offset, p.sort⟩)

/-- A journal entry, `src/storage.ts`.  The `update` entry carries the full
post-mutation document (the source writes the whole updated/patched
document). -/
inductive JournalEntry where
  | insert (collection : String) (doc : Obj)
  | update (collection : String) (id : String) (doc : Obj)
  | delete (collection : String) (id : String)

/-- The timestamp value stored for a clock reading, see the module
conventions. -/
def tstamp (now : Nat) : JVal := JVal.num now

/-- Outcome of a single-document write: the new state, the entries the call
appended to the journal, and the returned document (`none` for
`undefined`). -/
structure WriteOut where
  state : DBState
  journal : List JournalEntry
  ret : Option Obj

/-- `ShelfDB.insert`: builds `\x7b...doc, _id, _createdAt, _updatedAt\x7d`
with a fresh id and clock reading, stores it under the new id (creating the
collection), and journals the full document. -/
def ShelfDB.insert (s : DBState) (c : String) (newId : String) (now : Nat) (doc : Obj) :
    WriteOut :=
  let full := setA (setA (setA doc "_id" (JVal.str newId)) "_createdAt" (tstamp now))
    "_updatedAt" (tstamp now)
  ⟨setA s c (setA (getCol s c) newId full), [.insert c full], some full⟩

/-- `ShelfDB.update`: `undefined` when the id is absent; otherwise stores
`\x7b...existing, ...doc, _updatedAt: now\x7d` and journals it. -/
def ShelfDB.update (s : DBState) (c id : String) (now : Nat) (doc : Obj) : WriteOut :=
  match getDoc s c id with
  | none => ⟨s, [], none⟩
  | some existing =>
    let updated := setA (spreadA existing doc) "_updatedAt" (tstamp now)
    ⟨setA s c (setA (getCol s c) id updated), [.update c id updated], some updated⟩

/-- `ShelfDB.patch`: `undefined` when the id is absent; otherwise stores
`deepMerge(existing, \x7b...doc, _updatedAt: now\x7d)` and journals it. -/
def ShelfDB.patch (s : DBState) (c id : String) (now : Nat) (doc : Obj) : WriteOut :=
  match getDoc s c id with
  | none => ⟨s, [], none⟩
  | some existing =>
    let patched := deepMerge existing (setA doc "_updatedAt" (tstamp now))
    ⟨setA s c (setA (getCol s c) id patched), [.update c id patched], some patched⟩

/-- Outcome of `ShelfDB.delete`: new state, journal appends, returned
boolean. -/
structure DeleteOut where
  state : DBState
  journal : List JournalEntry
  ret : Bool

/-- `ShelfDB.delete`: `false` (and no effect — the collection is not even
created) when the id is absent; otherwise removes the entry and journals
the deletion. -/
def ShelfDB.delete (s : DBState) (c id : String) : DeleteOut :=
  match lookupA (getCol s c) id with
  | none => ⟨s, [], false⟩
  | some _ => ⟨setA s c (removeA (getCol s c) id), [.delete c id], true⟩

/-- The property key `entry.doc._id` coerces to when a document is stored
by `applyJournal` (only the string case occurs for entries the engine
writes; JS would render a missing `_id` as `"undefined"`). -/
def docIdKey (doc : Obj) : String :=
  match lookupA doc "_id" with
  | some (JVal.str s) => s
  | _ => "undefined"

/-- `ShelfDB.applyJournal` from `src/storage.ts`.  Note the source (`||=`)
creates the target collection even when an `update` entry is then skipped,
and replays an `update` entry by `deepMerge` into the existing document,
skipping it when the id is absent. -/
def applyJournal (s : DBState) (e : JournalEntry) : DBState :=
  match e with
  | .insert c doc =>
    let col := getCol s c
    setA s c (setA col (docIdKey doc) doc)
  | .update c id doc =>
    let col := getCol s c
    match lookupA col id with
    | none => setA s c col
    | some existing => setA s c (setA col id (deepMerge existing doc))
  | .delete c id =>
    let col := getCol s c
    setA s c (removeA col id)

/-- Journal replay as performed by `ShelfDB.load`: entries applied in file
order. -/
def replay (s : DBState) (es : List JournalEntry) : DBState := es.foldl applyJournal s

/-- A mutation submitted to the engine, with its generated id and clock
reading made explicit. -/
inductive Mut where
  | ins (c : String) (newId : String) (now : Nat) (doc : Obj)
  | upd (c id : String) (now : Nat) (doc : Obj)
  | pat (c id : String) (now : Nat) (doc : Obj)
  | del (c id : String)

/-- Whether a mutation is an insert or a delete. -/
def Mut.isInsDel : Mut → Bool
  | .ins _ _ _ _ => true
  | .del _ _ => true
  | _ => false

/-- One mutation applied directly in memory, with the journal entries it
appends. -/
def applyMut (s : DBState) : Mut → DBState × List JournalEntry
  | .ins c nid now d => let o := ShelfDB.insert s c nid now d; (o.state, o.journal)
  | .upd c id now d => let o := ShelfDB.update s c id now d; (o.state, o.journal)
  | .pat c id now d => let o := ShelfDB.patch s c id now d; (o.state, o.journal)
  | .del c id => let o := ShelfDB.delete s c id; (o.state, o.journal)

/-- A mutation sequence applied directly in memory, together with the
journal entries recorded in order. -/
def runMuts : DBState → List Mut → DBState × List JournalEntry
  | s, [] => (s, [])
  | s, m :: rest =>
    let o := applyMut s m
    let r := runMuts o.1 rest
    (r.1, o.2 ++ r.2)

/-- A bulk operation (`BulkOperation` from `src/types.ts`), with the
generated id and clock reading of an insert made explicit. -/
inductive BulkOp where
  | ins (newId : String) (now : Nat) (doc : Obj)
  | upd (id : String) (now : Nat) (doc : Obj)
  | pat (id : String) (now : Nat) (doc : Obj)
  | del (id : String)

/-- A per-operation result pushed by `ShelfDB.bulk`: the written document,
or `\x7bdeleted: id\x7d`. -/
inductive BulkRes where
  | doc (d : Obj)
  | deleted (id : String)

/-- One iteration of the loop body of `ShelfDB.bulk` (the branches inline
the same logic as the single-document operations); `none` models the thrown
`not found` error. -/
def bulkApply (s : DBState) (c : String) : BulkOp → Option (DBState × BulkRes × JournalEntry)
  | .ins nid now d =>
    let full := setA (setA (setA d "_id" (JVal.str nid)) "_createdAt" (tstamp now))
      "_updatedAt" (tstamp now)
    some (setA s c (setA (getCol s c) nid full), .doc full, .insert c full)
  | .upd id now d =>
    match getDoc s c id with
    | none => none
    | some existing =>
      let updated := setA (spreadA existing d) "_updatedAt" (tstamp now)
      some (setA s c (setA (getCol s c) id updated), .doc updated, .update c id updated)
  | .pat id now d =>
    match getDoc s c id with
    | none => none
    | some existing =>
      let patched := deepMerge existing (setA d "_updatedAt" (tstamp now))
      some (setA s c (setA (getCol s c) id patched), .doc patched, .update c id patched)
  | .del id =>
    match lookupA (getCol s c) id with
    | none => none
    | some _ => some (setA s c (removeA (getCol s c) id), .deleted id, .delete c id)

/-- The loop of `ShelfDB.bulk`, threading the working state and the
accumulated `results` and `journalBatch` arrays; `none` propagates the
thrown error. -/
def bulkLoop (c : String) : DBState → List BulkOp → List BulkRes → List JournalEntry →
    Option (DBState × List BulkRes × List JournalEntry)
  | s, [], rs, js => some (s, rs, js)
  | s, op :: rest, rs, js =>
    match bulkApply s c op with
    | none => none
    | some o => bulkLoop c o.1 rest (rs ++ [o.2.1]) (js ++ [o.2.2])

/-- Outcome of `ShelfDB.bulk`: final in-memory state, entries appended to
the journal by the call, and the per-op results (`none` models the
rethrown error). -/
structure BulkOutcome where
  state : DBState
  journal : List JournalEntry
  result : Option (List BulkRes)

/-- `ShelfDB.bulk` from `src/storage.ts`: runs the loop; on success the
batch is appended to the journal as one contiguous write and the results
returned; on a thrown error the state is restored from the pre-call
deep-copy snapshot (`JSON.parse(JSON.stringify(state))`, the identity on
JSON-compatible states) and nothing is journalled. -/
def ShelfDB.bulk (s : DBState) (c : String) (ops : List BulkOp) : BulkOutcome :=
  match bulkLoop c s ops [] [] with
  | none => ⟨s, [], none⟩
  | some o => ⟨o.1, o.2.2, some o.2.1⟩

/-- Sequential single-operation semantics of a bulk batch: apply each
operation in order via the loop-body semantics, stopping at the first
failure. -/
def bulkSpec (c : String) : DBState → List BulkOp →
    Option (DBState × List BulkRes × List JournalEntry)
  | s, [] => some (s, [], [])
  | s, op :: rest =>
    match bulkApply s c op with
    | none => none
    | some o =>
      match bulkSpec c o.1 rest with
      | none => none
      | some r => some (r.1, o.2.1 :: r.2.1, o.2.2 :: r.2.2)

/-- The parse outcome of one NDJSON import line: blank (skipped), malformed
(`JSON.parse` throws), or a `\x7bcollection, doc\x7d` record together with
the id and clock reading its insert will use. -/
inductive NDLine where
  | blank
  | bad
  | good (c : String) (newId : String) (now : Nat) (doc : Obj)

/-- Outcome of `ShelfDB.importNDJSON`: final state, entries appended to the
journal file during the call, and whether the call succeeded. -/
structure ImportOut where
  state : DBState
  journal : List JournalEntry
  ok : Bool

/-- The line loop of `ShelfDB.importNDJSON`: each good line is inserted via
`ShelfDB.insert` (which appends its journal entry immediately); a malformed
line restores the in-memory state from the pre-call snapshot and rethrows —
but the journal entries already appended remain. -/
def importLoop (s0 : DBState) : DBState → List JournalEntry → List NDLine → ImportOut
  | s, js, [] => ⟨s, js, true⟩
  | s, js, .blank :: rest => importLoop s0 s js rest
  | _, js, .bad :: _ => ⟨s0, js, false⟩
  | s, js, .good c nid now d :: rest =>
    let o := ShelfDB.insert s c nid now d
    importLoop s0 o.state (js ++ o.journal) rest

/-- `ShelfDB.importNDJSON` from `src/storage.ts`. -/
def ShelfDB.importNDJSON (s : DBState) (lines : List NDLine) : ImportOut :=
  importLoop s s [] lines

/-- A `ShelfDB` instance: the in-memory state plus the parsed contents of
the snapshot file and the journal file. -/
structure DB where
  state : DBState
  snapFile : DBState
  journalFile : List JournalEntry

/-- `ShelfDB.snapshot`: atomically writes the current state to the snapshot
file. -/
def ShelfDB.snapshot (db : DB) : DB := { db with snapFile := db.state }

/-- `ShelfDB.compact`: snapshot, then truncate the journal file. -/
def ShelfDB.compact (db : DB) : DB := { ShelfDB.snapshot db with journalFile := [] }

/-- `ShelfDB.load`: read the snapshot file and replay the journal file. -/
def ShelfDB.load (db : DB) : DB := { db with state := replay db.snapFile db.journalFile }

theorem lookupA_map_self {α : Type} (k : String) (v : α) :
    ∀ o : List (String × α),
      lookupA (o.map (fun p => if p.1 = k then (k, v) else p)) k = (lookupA o k).map (fun _ => v)
  | [] => rfl
  | (a, b) :: rest => by
    rcases eq_or_ne a k with hp | hp
    · subst hp
      simp [lookupA]
    · simp only [List.map_cons, lookupA]
      rw [if_neg hp]
      simp [hp, lookupA_map_self k v rest]

theorem lookupA_map_ne {α : Type} (k k' : String) (v : α) (h : k' ≠ k) :
    ∀ o : List (String × α),
      lookupA (o.map (fun p => if p.1 = k then (k, v) else p)) k' = lookupA o k'
  | [] => rfl
  | (a, b) :: rest => by
    rcases eq_or_ne a k with hp | hp
    · subst hp
      simp [lookupA, Ne.symm h, lookupA_map_ne a k' v h rest]
    · rcases eq_or_ne a k' with ha | ha
      · subst ha
        simp only [List.map_cons, lookupA]
        rw [if_neg hp]
        simp
      · simp only [List.map_cons, lookupA]
        rw [if_neg hp]
        simp [ha, lookupA_map_ne k k' v h rest]

theorem lookupA_append {α : Type} (k : String) (tl : List (String × α)) :
    ∀ o : List (String × α),
      lookupA (o ++ tl) k = ((lookupA o k).elim (lookupA tl k) some)
  | [] => rfl
  | (a, b) :: rest => by
    rcases eq_or_ne a k with ha | ha
    · subst ha
      simp [lookupA]
    · simp [lookupA, ha, lookupA_append k tl rest]

theorem lookupA_setA_self {α : Type} (o : List (String × α)) (k : String) (v : α) :
    lookupA (setA o k v) k = some v := by
  unfold setA
  split
  · rename_i h
    rw [lookupA_map_self]
    simp only [List.any_eq_true, decide_eq_true_eq] at h
    obtain ⟨p, hp, hk⟩ := h
    have : lookupA o k ≠ none := by
      intro hn
      induction o with
      | nil => simp at hp
      | cons q rest ih =>
        obtain ⟨a, b⟩ := q
        by_cases ha : a = k
        · simp [lookupA, ha] at hn
        · rcases List.mem_cons.mp hp with h1 | h1
          · subst h1; exact ha hk
          · exact ih h1 (by simpa [lookupA, ha] using hn)
    cases hv : lookupA o k with
    | none => exact absurd hv this
    | some w => simp
  · rw [lookupA_append]
    rename_i h
    have : lookupA o k = none := by
      induction o with
      | nil => rfl
      | cons q rest ih =>
        obtain ⟨a, b⟩ := q
        simp only [List.any_cons, Bool.or_eq_true, decide_eq_true_eq] at h
        push_neg at h
        simp [lookupA, h.1, ih (by simpa using h.2)]
    simp [this, lookupA]

theorem lookupA_setA_ne {α : Type} (o : List (String × α)) (k k' : String) (v : α)
    (h : k' ≠ k) : lookupA (setA o k v) k' = lookupA o k' := by
  unfold setA
  split
  · exact lookupA_map_ne k k' v h o
  · rw [lookupA_append]
    cases hv : lookupA o k' with
    | none => simp [lookupA, Ne.symm h]
    | some w => simp

theorem getCol_setA_self (s : DBState) (c : String) (col : Collection) :
    getCol (setA s c col) c = col := by
  simp [getCol, lookupA_setA_self]

theorem getCol_setA_ne (s : DBState) (c c' : String) (col : Collection) (h : c' ≠ c) :
    getCol (setA s c col) c' = getCol s c' := by
  simp [getCol, lookupA_setA_ne _ _ _ _ h]

theorem lookupA_eq_none_of_not_mem {α : Type} :
    ∀ (o : List (String × α)) (k : String), k ∉ keysA o → lookupA o k = none
  | [], _, _ => rfl
  | (a, b) :: rest, k, h => by
    simp only [keysA, List.map_cons, List.mem_cons, not_or] at h
    have ha : a ≠ k := fun hh => h.1 hh.symm
    simp only [lookupA, ha, if_false]
    exact lookupA_eq_none_of_not_mem rest k (by simpa [keysA] using h.2)

theorem keysA_setA_of_any {α : Type} (o : List (String × α)) (k : String) (v : α)
    (h : o.any (fun p => p.1 = k) = true) :
    keysA (setA o k v) = keysA o := by
  simp only [setA, h, if_true, keysA, List.map_map]
  apply List.map_congr_left
  intro p _
  by_cases hp : p.1 = k
  · simp [hp]
  · simp [hp]

theorem keysA_setA_of_not_any {α : Type} (o : List (String × α)) (k : String) (v : α)
    (h : ¬ o.any (fun p => p.1 = k) = true) :
    keysA (setA o k v) = keysA o ++ [k] := by
  simp only [setA]
  rw [if_neg h]
  simp [keysA]

theorem not_mem_keysA_setA {α : Type} (o : List (String × α)) (k k' : String) (v : α)
    (h1 : k' ∉ keysA o) (h2 : k' ≠ k) : k' ∉ keysA (setA o k v) := by
  by_cases ha : o.any (fun p => p.1 = k) = true
  · rw [keysA_setA_of_any o k v ha]; exact h1
  · rw [keysA_setA_of_not_any o k v ha]
    simp only [List.mem_append, List.mem_singleton, not_or]
    exact ⟨h1, h2⟩

theorem nodup_keysA_setA {α : Type} (o : List (String × α)) (k : String) (v : α)
    (h : (keysA o).Nodup) : (keysA (setA o k v)).Nodup := by
  by_cases ha : o.any (fun p => p.1 = k) = true
  · rw [keysA_setA_of_any o k v ha]; exact h
  · rw [keysA_setA_of_not_any o k v ha]
    refine List.Nodup.append h (List.nodup_singleton k) ?_
    intro x hx hx'
    rw [List.mem_singleton] at hx'
    subst hx'
    simp only [keysA, List.mem_map] at hx
    obtain ⟨p, hp, hpk⟩ := hx
    exact ha (List.any_eq_true.mpr ⟨p, hp, by simp [hpk]⟩)

theorem mem_setA_self {α : Type} (o : List (String × α)) (k : String) (v : α) :
    (k, v) ∈ setA o k v := by
  by_cases ha : o.any (fun p => p.1 = k) = true
  · simp only [setA, ha, if_true]
    obtain ⟨p, hp, hpk⟩ := List.any_eq_true.mp ha
    simp only [decide_eq_true_eq] at hpk
    exact List.mem_map.mpr ⟨p, hp, by simp [hpk]⟩
  · simp [setA, ha]

theorem lookupA_spreadA_not_mem :
    ∀ (b a : Obj) (k : String), k ∉ keysA b → lookupA (spreadA a b) k = lookupA a k
  | [], _, _, _ => rfl
  | (kb, vb) :: rest, a, k, h => by
    simp only [keysA, List.map_cons, List.mem_cons, not_or] at h
    have step : spreadA a ((kb, vb) :: rest) = spreadA (setA a kb vb) rest := rfl
    rw [step, lookupA_spreadA_not_mem rest (setA a kb vb) k (by simpa [keysA] using h.2)]
    exact lookupA_setA_ne a kb k vb h.1

theorem lookupA_spreadA_mem :
    ∀ (b a : Obj) (k : String) (v : JVal), (keysA b).Nodup → (k, v) ∈ b →
      lookupA (spreadA a b) k = some v
  | [], _, _, _, _, hm => absurd hm (List.not_mem_nil _)
  | (kb, vb) :: rest, a, k, v, hnd, hm => by
    have step : spreadA a ((kb, vb) :: rest) = spreadA (setA a kb vb) rest := rfl
    simp only [keysA, List.map_cons, List.nodup_cons] at hnd
    rcases List.mem_cons.mp hm with he | hm'
    · obtain ⟨hk, hv⟩ := Prod.mk.injEq .. ▸ he
      subst hk; subst hv
      rw [step, lookupA_spreadA_not_mem rest (setA a k v) k (by simpa [keysA] using hnd.1)]
      exact lookupA_setA_self a k v
    · rw [step]
      exact lookupA_spreadA_mem rest (setA a kb vb) k v (by simpa [keysA] using hnd.2) hm'

/-- The value `deepMerge` stores at a key: recursive merge when both the
incoming value and the current value are plain objects, the incoming value
otherwise (the branch structure of `deepMergeEntry`). -/
def mergedVal (cur : Option JVal) (v : JVal) : JVal :=
  match v, cur with
  | JVal.obj bo, some (JVal.obj ao) => JVal.obj (deepMerge ao bo)
  | _, _ => v

theorem lookupA_deepMergeEntry_self (a : Obj) (k : String) (v : JVal) :
    lookupA (deepMergeEntry a k v) k = some (mergedVal (lookupA a k) v) := by
  cases hl : lookupA a k with
  | none => cases v <;> simp [deepMergeEntry, hl, mergedVal, lookupA_setA_self]
  | some w => cases v <;> cases w <;> simp [deepMergeEntry, hl, mergedVal, lookupA_setA_self]

theorem lookupA_deepMergeEntry_ne (a : Obj) (kb k : String) (v : JVal) (h : k ≠ kb) :
    lookupA (deepMergeEntry a kb v) k = lookupA a k := by
  cases hl : lookupA a kb with
  | none => cases v <;> simp [deepMergeEntry, hl, lookupA_setA_ne _ _ _ _ h]
  | some w => cases v <;> cases w <;> simp [deepMergeEntry, hl, lookupA_setA_ne _ _ _ _ h]

theorem lookupA_deepMerge_not_mem :
    ∀ (b a : Obj) (k : String), k ∉ keysA b → lookupA (deepMerge a b) k = lookupA a k
  | [], _, _, _ => rfl
  | (kb, vb) :: rest, a, k, h => by
    simp only [keysA, List.map_cons, List.mem_cons, not_or] at h
    have step : deepMerge a ((kb, vb) :: rest) = deepMerge (deepMergeEntry a kb vb) rest := rfl
    rw [step, lookupA_deepMerge_not_mem rest _ k (by simpa [keysA] using h.2)]
    exact lookupA_deepMergeEntry_ne a kb k vb h.1

theorem lookupA_deepMerge_mem :
    ∀ (b a : Obj) (k : String) (v : JVal), (keysA b).Nodup → (k, v) ∈ b →
      lookupA (deepMerge a b) k = some (mergedVal (lookupA a k) v)
  | [], _, _, _, _, hm => absurd hm (List.not_mem_nil _)
  | (kb, vb) :: rest, a, k, v, hnd, hm => by
    have step : deepMerge a ((kb, vb) :: rest) = deepMerge (deepMergeEntry a kb vb) rest := rfl
    simp only [keysA, List.map_cons, List.nodup_cons] at hnd
    rcases List.mem_cons.mp hm with he | hm'
    · obtain ⟨hk, hv⟩ := Prod.mk.injEq .. ▸ he
      subst hk; subst hv
      rw [step, lookupA_deepMerge_not_mem rest _ k (by simpa [keysA] using hnd.1)]
      exact lookupA_deepMergeEntry_self a k v
    · have hkkb : k ≠ kb := by
        intro hh
        subst hh
        exact hnd.1 (by simpa [keysA] using List.mem_map_of_mem (fun p => p.1) hm')
      rw [step, lookupA_deepMerge_mem rest _ k v (by simpa [keysA] using hnd.2) hm',
        lookupA_deepMergeEntry_ne a kb k vb hkkb]

theorem replay_append (s : DBState) (a b : List JournalEntry) :
    replay s (a ++ b) = replay (replay s a) b := by
  simp [replay, List.foldl_append]

theorem mergedVal_num (cur : Option JVal) (n : Int) : mergedVal cur (JVal.num n) = JVal.num n := by
  cases cur with
  | none => rfl
  | some w => cases w <;> rfl

/-- C8: `compact()` does not change the in-memory state, hence for every
collection and every query options value, `query` before and after
`compact()` returns identical `total` and `items`. -/
theorem compact_preserves_query (db : DB) (c : String) (opts : QueryOpts) :
    ShelfDB.query (ShelfDB.compact db).state c opts = ShelfDB.query db.state c opts := rfl

/-- C9: a failed single-document mutation is a complete no-op — update,
patch and delete targeting an absent id (or absent collection) return the
NotFound result (`undefined` for update/patch, `false` for delete) and
leave the state (no collection created) and the journal untouched. -/
theorem notfound_mutation_noop (s : DBState) (c id : String) (now : Nat) (d : Obj)
    (h : getDoc s c id = none) :
    ShelfDB.update s c id now d = ⟨s, [], none⟩
  ∧ ShelfDB.patch s c id now d = ⟨s, [], none⟩
  ∧ ShelfDB.delete s c id = ⟨s, [], false⟩ := by
  have h' : lookupA (getCol s c) id = none := h
  exact ⟨by simp [ShelfDB.update, h], by simp [ShelfDB.patch, h], by simp [ShelfDB.delete, h']⟩

/-- Witness for `notfound_mutation_noop`: an absent id in an empty
database. -/
theorem notfound_mutation_noop_witness :
    ShelfDB.update [] "books" "i" 0 [] = ⟨[], [], none⟩
  ∧ ShelfDB.patch [] "books" "i" 0 [] = ⟨[], [], none⟩
  ∧ ShelfDB.delete [] "books" "i" = ⟨[], [], false⟩ :=
  notfound_mutation_noop [] "books" "i" 0 [] rfl

/-- C7: deepMerge semantics — keys absent from the partial are untouched;
when both the incoming and existing values at a key are plain objects the
merge recurses; otherwise the incoming value replaces the existing one
(including replacing an object with a scalar, array or null); and the two
concrete examples of the claim. -/
theorem deepMerge_spec :
    (∀ (a b : Obj) (k : String), k ∉ keysA b → lookupA (deepMerge a b) k = lookupA a k)
  ∧ (∀ (a b : Obj) (k : String) (bo ao : Obj), (keysA b).Nodup → (k, JVal.obj bo) ∈ b →
      lookupA a k = some (JVal.obj ao) →
      lookupA (deepMerge a b) k = some (JVal.obj (deepMerge ao bo)))
  ∧ (∀ (a b : Obj) (k : String) (v : JVal), (keysA b).Nodup → (k, v) ∈ b →
      (isObject v = false ∨ isObject ((lookupA a k).getD JVal.null) = false) →
      lookupA (deepMerge a b) k = some v)
  ∧ deepMerge [("a", JVal.obj [("x", JVal.num 1)])] [("a", JVal.obj [("y", JVal.num 2)])]
      = [("a", JVal.obj [("x", JVal.num 1), ("y", JVal.num 2)])]
  ∧ deepMerge [("a", JVal.obj [("x", JVal.num 1)])] [("a", JVal.null)] = [("a", JVal.null)] := by
  refine ⟨fun a b k h => lookupA_deepMerge_not_mem b a k h, ?_, ?_, rfl, rfl⟩
  · intro a b k bo ao hnd hm ha
    rw [lookupA_deepMerge_mem b a k (JVal.obj bo) hnd hm, ha]
    rfl
  · intro a b k v hnd hm hor
    rw [lookupA_deepMerge_mem b a k v hnd hm]
    rcases hor with hv | hcur
    · cases v <;> first
        | rfl
        | (cases hl : lookupA a k with
           | none => rfl
           | some w => cases w <;> simp [isObject, mergedVal] at hv ⊢)
    · cases hl : lookupA a k with
      | none => cases v <;> rfl
      | some w =>
        rw [hl] at hcur
        cases v <;> cases w <;> simp [isObject, mergedVal] at hcur ⊢

/-- Witness for `deepMerge_spec` at concrete objects. -/
theorem deepMerge_spec_witness :
    lookupA (deepMerge [("z", JVal.num 7)] [("a", JVal.num 1)]) "z" = some (JVal.num 7)
  ∧ lookupA (deepMerge [("a", JVal.obj [("x", JVal.num 1)])] [("a", JVal.obj [("y", JVal.num 2)])]) "a"
      = some (JVal.obj (deepMerge [("x", JVal.num 1)] [("y", JVal.num 2)]))
  ∧ lookupA (deepMerge [("a", JVal.obj [("x", JVal.num 1)])] [("a", JVal.null)]) "a"
      = some JVal.null :=
  ⟨deepMerge_spec.1 [("z", JVal.num 7)] [("a", JVal.num 1)] "z" (by decide),
   deepMerge_spec.2.1 [("a", JVal.obj [("x", JVal.num 1)])] [("a", JVal.obj [("y", JVal.num 2)])]
     "a" [("y", JVal.num 2)] [("x", JVal.num 1)] (by decide) (List.mem_singleton.mpr rfl) rfl,
   deepMerge_spec.2.2.1 [("a", JVal.obj [("x", JVal.num 1)])] [("a", JVal.null)] "a" JVal.null
     (by decide) (List.mem_singleton.mpr rfl) (Or.inl rfl)⟩

/-- C10 counterexample: a filter string that parses to the JSON string
scalar `"a"` does not match every document — `Object.entries` of a string
yields index/character entries, so the match fails on a document lacking
the key `"0"`, contradicting the claim for string-typed scalars. -/
theorem filter_string_scalar_cex :
    filterByQuery [("_id", JVal.str "x")] (QParse.parsed (JVal.str "a")) = false := rfl

/-- C10 (amended): a filter parsing to a number or boolean matches every
document (zero entries); an absent/empty filter matches every document;
and a structured filter with an object value at some key never matches any
document (reference equality). String scalars are excluded: their entries
are index/character pairs. -/
theorem filter_semantics_amended :
    (∀ (dd : Obj) (n : Int), filterByQuery dd (QParse.parsed (JVal.num n)) = true)
  ∧ (∀ (dd : Obj) (b : Bool), filterByQuery dd (QParse.parsed (JVal.bool b)) = true)
  ∧ (∀ dd : Obj, filterByQuery dd QParse.noQ = true)
  ∧ (∀ (dd fields : Obj) (k : String) (o : Obj), (k, JVal.obj o) ∈ fields →
      filterByQuery dd (QParse.parsed (JVal.obj fields)) = false) := by
  refine ⟨fun dd n => rfl, fun dd b => rfl, fun dd => rfl, ?_⟩
  intro dd fields k o hm
  simp only [filterByQuery, jsEntries]
  cases hall : fields.all (fun p => strictEqParsed (lookupA dd p.1) p.2) with
  | false => rfl
  | true =>
    exfalso
    have hh := List.all_eq_true.mp hall (k, JVal.obj o) hm
    cases hl : lookupA dd k with
    | none => rw [hl] at hh; simp [strictEqParsed] at hh
    | some w => rw [hl] at hh; cases w <;> simp [strictEqParsed, primEq] at hh

/-- Witness for `filter_semantics_amended`, including an object-valued
filter that is structurally identical to the stored value and still does
not match. -/
theorem filter_semantics_amended_witness :
    filterByQuery [] (QParse.parsed (JVal.num 5)) = true
  ∧ filterByQuery [("a", JVal.obj [("x", JVal.num 1)])]
      (QParse.parsed (JVal.obj [("a", JVal.obj [("x", JVal.num 1)])])) = false :=
  ⟨filter_semantics_amended.1 [] 5,
   filter_semantics_amended.2.2.2 [("a", JVal.obj [("x", JVal.num 1)])]
     [("a", JVal.obj [("x", JVal.num 1)])] "a" [("x", JVal.num 1)] (List.mem_singleton.mpr rfl)⟩

/-- A stored document and state used by several concrete counterexamples. -/
def c2Doc : Obj :=
  [("_id", JVal.str "i"), ("_createdAt", JVal.num 0), ("_updatedAt", JVal.num 0),
   ("a", JVal.num 1)]

def c2State : DBState := [("books", [("i", c2Doc)])]

/-- C2 counterexample: updating the stored document (which has a field
`a = 1`) with fields `\x7bb: 2\x7d` RETAINS `a` in the result; the claim
says every field not present in `fields` is dropped (`a` would be
absent). -/
theorem update_not_wholesale_cex :
    (ShelfDB.update c2State "books" "i" 1 [("b", JVal.num 2)]).ret.map
      (fun dd => lookupA dd "a") = some (some (JVal.num 1))
  ∧ (ShelfDB.update c2State "books" "i" 1 [("b", JVal.num 2)]).ret.map
      (fun dd => lookupA dd "a") ≠ some none := by
  refine ⟨rfl, ?_⟩
  intro h
  have h1 : (ShelfDB.update c2State "books" "i" 1 [("b", JVal.num 2)]).ret.map
      (fun dd => lookupA dd "a") = some (some (JVal.num 1)) := rfl
  rw [h1] at h
  simp at h

/-- C2 (amended): update fails NotFound when the id is absent; otherwise
the stored result is the previous document shallow-overlaid with `fields`
and a refreshed `_updatedAt` — fields of the previous document not present
in `fields` are retained, not dropped, and `_id`/`_createdAt` survive only
because `fields` does not supply them. -/
theorem update_shallow_merge_amended :
    (∀ (s : DBState) (c id : String) (now : Nat) (d : Obj),
        getDoc s c id = none → ShelfDB.update s c id now d = ⟨s, [], none⟩)
  ∧ (∀ (s : DBState) (c id : String) (now : Nat) (d ex : Obj), getDoc s c id = some ex →
        (ShelfDB.update s c id now d).ret = some (setA (spreadA ex d) "_updatedAt" (tstamp now))
      ∧ getDoc (ShelfDB.update s c id now d).state c id
          = some (setA (spreadA ex d) "_updatedAt" (tstamp now)))
  ∧ (∀ (ex d : Obj) (k : String) (now : Nat), k ∉ keysA d → k ≠ "_updatedAt" →
        lookupA (setA (spreadA ex d) "_updatedAt" (tstamp now)) k = lookupA ex k)
  ∧ (∀ (ex d : Obj) (k : String) (v : JVal) (now : Nat), (keysA d).Nodup → (k, v) ∈ d →
        k ≠ "_updatedAt" →
        lookupA (setA (spreadA ex d) "_updatedAt" (tstamp now)) k = some v)
  ∧ (∀ (ex d : Obj) (now : Nat),
        lookupA (setA (spreadA ex d) "_updatedAt" (tstamp now)) "_updatedAt"
          = some (tstamp now)) := by
  refine ⟨?_, ?_, ?_, ?_, ?_⟩
  · intro s c id now d h
    simp [ShelfDB.update, h]
  · intro s c id now d ex h
    constructor
    · simp [ShelfDB.update, h]
    · simp only [ShelfDB.update, h]
      simp [getDoc, getCol_setA_self, lookupA_setA_self]
  · intro ex d k now h1 h2
    rw [lookupA_setA_ne _ _ _ _ h2, lookupA_spreadA_not_mem d ex k h1]
  · intro ex d k v now hnd hm h3
    rw [lookupA_setA_ne _ _ _ _ h3, lookupA_spreadA_mem d ex k v hnd hm]
  · intro ex d now
    exact lookupA_setA_self _ _ _

/-- Witness for `update_shallow_merge_amended` at concrete inputs. -/
theorem update_shallow_merge_amended_witness :
    ShelfDB.update [] "books" "i" 0 [] = ⟨[], [], none⟩
  ∧ (ShelfDB.update c2State "books" "i" 1 [("b", JVal.num 2)]).ret
      = some (setA (spreadA c2Doc [("b", JVal.num 2)]) "_updatedAt" (tstamp 1))
  ∧ lookupA (setA (spreadA c2Doc [("b", JVal.num 2)]) "_updatedAt" (tstamp 1)) "a"
      = lookupA c2Doc "a"
  ∧ lookupA (setA (spreadA c2Doc [("b", JVal.num 2)]) "_updatedAt" (tstamp 1)) "b"
      = some (JVal.num 2)
  ∧ lookupA (setA (spreadA c2Doc [("b", JVal.num 2)]) "_updatedAt" (tstamp 1)) "_updatedAt"
      = some (tstamp 1) :=
  ⟨update_shallow_merge_amended.1 [] "books" "i" 0 [] rfl,
   (update_shallow_merge_amended.2.1 c2State "books" "i" 1 [("b", JVal.num 2)] c2Doc rfl).1,
   update_shallow_merge_amended.2.2.1 c2Doc [("b", JVal.num 2)] "a" 1 (by decide) (by decide),
   update_shallow_merge_amended.2.2.2.1 c2Doc [("b", JVal.num 2)] "b" (JVal.num 2) 1
     (by decide) (List.mem_singleton.mpr rfl) (by decide),
   update_shallow_merge_amended.2.2.2.2 c2Doc [("b", JVal.num 2)] 1⟩

/-- C3 counterexample: an update whose fields carry `_createdAt: 99`
overwrites the stored `_createdAt` (the claim says caller-supplied reserved
keys are ignored), and the result has `_updatedAt = 1 < 99 = _createdAt`,
breaking the `updatedAt >= createdAt` invariant. -/
theorem reserved_fields_cex :
    (ShelfDB.update c2State "books" "i" 1 [("_createdAt", JVal.num 99)]).ret.map
      (fun dd => lookupA dd "_createdAt") = some (some (JVal.num 99))
  ∧ (ShelfDB.update c2State "books" "i" 1 [("_createdAt", JVal.num 99)]).ret.map
      (fun dd => lookupA dd "_createdAt") ≠ some (some (JVal.num 0))
  ∧ (ShelfDB.update c2State "books" "i" 1 [("_createdAt", JVal.num 99)]).ret.map
      (fun dd => lookupA dd "_updatedAt") = some (some (JVal.num 1)) := by
  refine ⟨rfl, ?_, rfl⟩
  intro h
  have h1 : (ShelfDB.update c2State "books" "i" 1 [("_createdAt", JVal.num 99)]).ret.map
      (fun dd => lookupA dd "_createdAt") = some (some (JVal.num 99)) := rfl
  rw [h1] at h
  simp at h

/-- C3 (amended): insert ignores caller-supplied reserved keys (they are
overwritten with the generated id and clock readings); update and patch
protect only `_updatedAt` — the stored `_id`/`_createdAt` are preserved
exactly when the caller's fields do not supply them. -/
theorem reserved_fields_amended :
    (∀ (s : DBState) (c nid : String) (now : Nat) (d : Obj),
        (ShelfDB.insert s c nid now d).ret.map (fun dd => lookupA dd "_id")
          = some (some (JVal.str nid))
      ∧ (ShelfDB.insert s c nid now d).ret.map (fun dd => lookupA dd "_createdAt")
          = some (some (tstamp now))
      ∧ (ShelfDB.insert s c nid now d).ret.map (fun dd => lookupA dd "_updatedAt")
          = some (some (tstamp now)))
  ∧ (∀ (s : DBState) (c id : String) (now : Nat) (d ex : Obj), getDoc s c id = some ex →
        "_id" ∉ keysA d → "_createdAt" ∉ keysA d →
        (ShelfDB.update s c id now d).ret.map (fun dd => lookupA dd "_id")
          = some (lookupA ex "_id")
      ∧ (ShelfDB.update s c id now d).ret.map (fun dd => lookupA dd "_createdAt")
          = some (lookupA ex "_createdAt")
      ∧ (ShelfDB.update s c id now d).ret.map (fun dd => lookupA dd "_updatedAt")
          = some (some (tstamp now)))
  ∧ (∀ (s : DBState) (c id : String) (now : Nat) (d ex : Obj), getDoc s c id = some ex →
        (keysA d).Nodup → "_id" ∉ keysA d → "_createdAt" ∉ keysA d →
        (ShelfDB.patch s c id now d).ret.map (fun dd => lookupA dd "_id")
          = some (lookupA ex "_id")
      ∧ (ShelfDB.patch s c id now d).ret.map (fun dd => lookupA dd "_createdAt")
          = some (lookupA ex "_createdAt")
      ∧ (ShelfDB.patch s c id now d).ret.map (fun dd => lookupA dd "_updatedAt")
          = some (some (tstamp now))) := by
  refine ⟨?_, ?_, ?_⟩
  · intro s c nid now d
    refine ⟨?_, ?_, ?_⟩ <;>
      simp [ShelfDB.insert, lookupA_setA_self, lookupA_setA_ne _ _ _ _ (by decide : ("_id" : String) ≠ "_updatedAt"),
        lookupA_setA_ne _ _ _ _ (by decide : ("_id" : String) ≠ "_createdAt"),
        lookupA_setA_ne _ _ _ _ (by decide : ("_createdAt" : String) ≠ "_updatedAt")]
  · intro s c id now d ex h h1 h2
    refine ⟨?_, ?_, ?_⟩ <;> simp only [ShelfDB.update, h, Option.map_some']
    · rw [lookupA_setA_ne _ _ _ _ (by decide : ("_id" : String) ≠ "_updatedAt"),
        lookupA_spreadA_not_mem d ex "_id" h1]
    · rw [lookupA_setA_ne _ _ _ _ (by decide : ("_createdAt" : String) ≠ "_updatedAt"),
        lookupA_spreadA_not_mem d ex "_createdAt" h2]
    · rw [lookupA_setA_self]
  · intro s c id now d ex h hnd h1 h2
    refine ⟨?_, ?_, ?_⟩ <;> simp only [ShelfDB.patch, h, Option.map_some']
    · rw [lookupA_deepMerge_not_mem _ ex "_id"
        (not_mem_keysA_setA d "_updatedAt" "_id" (tstamp now) h1
          (by decide : ("_id" : String) ≠ "_updatedAt"))]
    · rw [lookupA_deepMerge_not_mem _ ex "_createdAt"
        (not_mem_keysA_setA d "_updatedAt" "_createdAt" (tstamp now) h2
          (by decide : ("_createdAt" : String) ≠ "_updatedAt"))]
    · rw [lookupA_deepMerge_mem _ ex "_updatedAt" (tstamp now)
        (nodup_keysA_setA d "_updatedAt" (tstamp now) hnd)
        (mem_setA_self d "_updatedAt" (tstamp now))]
      rw [show tstamp now = JVal.num now from rfl, mergedVal_num]

/-- Witness for `reserved_fields_amended` at concrete inputs. -/
theorem reserved_fields_amended_witness :
    (ShelfDB.insert [] "books" "n" 5 [("_id", JVal.str "evil")]).ret.map
      (fun dd => lookupA dd "_id") = some (some (JVal.str "n"))
  ∧ (ShelfDB.update c2State "books" "i" 2 [("b", JVal.num 2)]).ret.map
      (fun dd => lookupA dd "_createdAt") = some (lookupA c2Doc "_createdAt")
  ∧ (ShelfDB.patch c2State "books" "i" 2 [("b", JVal.num 2)]).ret.map
      (fun dd => lookupA dd "_id") = some (lookupA c2Doc "_id") :=
  ⟨(reserved_fields_amended.1 [] "books" "n" 5 [("_id", JVal.str "evil")]).1,
   (reserved_fields_amended.2.1 c2State "books" "i" 2 [("b", JVal.num 2)] c2Doc rfl
      (by decide) (by decide)).2.1,
   (reserved_fields_amended.2.2 c2State "books" "i" 2 [("b", JVal.num 2)] c2Doc rfl
      (by decide) (by decide) (by decide)).1⟩

theorem docIdKey_full (d : Obj) (nid : String) (now : Nat) :
    docIdKey (setA (setA (setA d "_id" (JVal.str nid)) "_createdAt" (tstamp now))
      "_updatedAt" (tstamp now)) = nid := by
  unfold docIdKey
  rw [lookupA_setA_ne _ _ _ _ (by decide : ("_id" : String) ≠ "_updatedAt"),
    lookupA_setA_ne _ _ _ _ (by decide : ("_id" : String) ≠ "_createdAt"),
    lookupA_setA_self]

theorem replay_applyMut_insdel (s : DBState) (m : Mut) (h : m.isInsDel = true) :
    replay s (applyMut s m).2 = (applyMut s m).1 := by
  cases m with
  | ins c nid now d =>
    simp [applyMut, ShelfDB.insert, replay, applyJournal, docIdKey_full]
  | upd c id now d => simp [Mut.isInsDel] at h
  | pat c id now d => simp [Mut.isInsDel] at h
  | del c id =>
    cases hl : lookupA (getCol s c) id with
    | none => simp [applyMut, ShelfDB.delete, hl, replay]
    | some w => simp [applyMut, ShelfDB.delete, hl, replay, applyJournal]

theorem replay_runMuts_insdel :
    ∀ (muts : List Mut) (s : DBState), (∀ m ∈ muts, m.isInsDel = true) →
      replay s (runMuts s muts).2 = (runMuts s muts).1
  | [], _, _ => rfl
  | m :: rest, s, h => by
    simp only [runMuts]
    rw [replay_append, replay_applyMut_insdel s m (h m (List.mem_cons_self m rest))]
    exact replay_runMuts_insdel rest (applyMut s m).1
      (fun m' hm' => h m' (List.mem_cons_of_mem m hm'))

/-- C1 (amended): replay applies an update journal entry by deep-merging
the entry's post-mutation document into the existing document when the id
is present, and skips the write (leaving the id absent) when it is not —
not by setting `collection[id]` unconditionally; replay of
(snapshot + journal) equals direct application for mutation sequences of
inserts and deletes, but not in general (see the counterexample). -/
theorem replay_amended :
    (∀ (s : DBState) (c id : String) (d ex : Obj), getDoc s c id = some ex →
        getDoc (applyJournal s (JournalEntry.update c id d)) c id = some (deepMerge ex d))
  ∧ (∀ (s : DBState) (c id : String) (d : Obj), getDoc s c id = none →
        getDoc (applyJournal s (JournalEntry.update c id d)) c id = none)
  ∧ (∀ (muts : List Mut) (s : DBState), (∀ m ∈ muts, m.isInsDel = true) →
        replay s (runMuts s muts).2 = (runMuts s muts).1) := by
  refine ⟨?_, ?_, replay_runMuts_insdel⟩
  · intro s c id d ex h
    have h' : lookupA (getCol s c) id = some ex := h
    simp [applyJournal, h', getDoc, getCol_setA_self, lookupA_setA_self]
  · intro s c id d h
    have h' : lookupA (getCol s c) id = none := h
    simp [applyJournal, h', getDoc, getCol_setA_self]

/-- Witness for `replay_amended` at concrete states and mutations. -/
theorem replay_amended_witness :
    getDoc (applyJournal c2State (JournalEntry.update "books" "i" [("b", JVal.num 2)]))
      "books" "i" = some (deepMerge c2Doc [("b", JVal.num 2)])
  ∧ getDoc (applyJournal [] (JournalEntry.update "books" "i" [("b", JVal.num 2)]))
      "books" "i" = none
  ∧ replay [] (runMuts [] [Mut.ins "c" "i" 0 []]).2 = (runMuts [] [Mut.ins "c" "i" 0 []]).1 :=
  ⟨replay_amended.1 c2State "books" "i" [("b", JVal.num 2)] c2Doc rfl,
   replay_amended.2.1 [] "books" "i" [("b", JVal.num 2)] rfl,
   replay_amended.2.2 [Mut.ins "c" "i" 0 []] [] (List.forall_mem_singleton.mpr rfl)⟩

/-- The inserted-then-updated mutation sequence on which replay and direct
application disagree: the update replaces the object field `a` wholesale in
memory, but replay deep-merges the journalled post-state back into the old
document and resurrects `a.x`. -/
def c1Muts : List Mut :=
  [Mut.ins "c" "i" 0 [("a", JVal.obj [("x", JVal.num 1)])],
   Mut.upd "c" "i" 1 [("a", JVal.obj [("y", JVal.num 2)])]]

/-- Observation distinguishing the two final states: the value of `a.x` of
document `i` of collection `c`. -/
def c1Probe (s : DBState) : Option JVal :=
  match getDoc s "c" "i" with
  | some dd =>
    match lookupA dd "a" with
    | some (JVal.obj o) => lookupA o "x"
    | _ => none
  | none => none

/-- C1 counterexample: for the concrete accepted mutation sequence
`c1Muts`, replaying the journal from the pre-state does NOT reproduce the
directly applied state (replay yields `a.x = 1`, direct application has no
`a.x`). -/
theorem replay_not_direct_cex :
    replay [] (runMuts [] c1Muts).2 ≠ (runMuts [] c1Muts).1 := by
  intro h
  have h1 : c1Probe (replay [] (runMuts [] c1Muts).2) = some (JVal.num 1) := rfl
  have h2 : c1Probe ((runMuts [] c1Muts).1) = none := rfl
  rw [h] at h1
  rw [h1] at h2
  exact Option.noConfusion h2

theorem bulkLoop_spec (c : String) :
    ∀ (ops : List BulkOp) (s : DBState) (rs : List BulkRes) (js : List JournalEntry),
      bulkLoop c s ops rs js
        = (bulkSpec c s ops).map (fun o => (o.1, rs ++ o.2.1, js ++ o.2.2))
  | [], s, rs, js => by simp [bulkLoop, bulkSpec]
  | op :: rest, s, rs, js => by
    simp only [bulkLoop, bulkSpec]
    cases hba : bulkApply s c op with
    | none => rfl
    | some o =>
      dsimp only
      rw [bulkLoop_spec c rest o.1 (rs ++ [o.2.1]) (js ++ [o.2.2])]
      cases hbs : bulkSpec c o.1 rest with
      | none => rfl
      | some r => simp

/-- C4: bulk is all-or-nothing: when some operation fails, the call
surfaces the error with the in-memory state equal to the pre-call state
and no journal appends; when all operations succeed, the final state,
the single contiguous journal batch and the ordered per-op results are
exactly those of applying the operations sequentially in order. -/
theorem bulk_atomic :
    (∀ (s : DBState) (c : String) (ops : List BulkOp), bulkSpec c s ops = none →
        ShelfDB.bulk s c ops = ⟨s, [], none⟩)
  ∧ (∀ (s : DBState) (c : String) (ops : List BulkOp)
        (r : DBState × List BulkRes × List JournalEntry), bulkSpec c s ops = some r →
        ShelfDB.bulk s c ops = ⟨r.1, r.2.2, some r.2.1⟩) := by
  constructor
  · intro s c ops h
    simp [ShelfDB.bulk, bulkLoop_spec c ops s [] [], h]
  · intro s c ops r h
    simp [ShelfDB.bulk, bulkLoop_spec c ops s [] [], h]

/-- The document produced by the successful bulk insert of the witness. -/
def c4Full : Obj := [("_id", JVal.str "i"), ("_createdAt", JVal.num 0), ("_updatedAt", JVal.num 0)]

/-- Witness for `bulk_atomic`: a batch whose delete targets a missing id
fails with no effect; a singleton insert batch succeeds. -/
theorem bulk_atomic_witness :
    ShelfDB.bulk [] "c" [BulkOp.del "i"] = ⟨[], [], none⟩
  ∧ ShelfDB.bulk [] "c" [BulkOp.ins "i" 0 []]
      = ⟨[("c", [("i", c4Full)])], [JournalEntry.insert "c" c4Full],
          some [BulkRes.doc c4Full]⟩ :=
  ⟨bulk_atomic.1 [] "c" [BulkOp.del "i"] rfl,
   bulk_atomic.2 [] "c" [BulkOp.ins "i" 0 []]
     ([("c", [("i", c4Full)])], [BulkRes.doc c4Full], [JournalEntry.insert "c" c4Full]) rfl⟩

/-- The failing NDJSON import input: one well-formed line, then one
malformed line. -/
def c5Lines : List NDLine := [NDLine.good "c" "i" 0 [], NDLine.bad]

/-- C5: at the failing input `c5Lines`, `importNDJSON` surfaces the error
with the in-memory state rolled back to the (empty) pre-call state, but
the journal keeps the insert entry of the rolled-back document — Database
State and Journal end in a mismatched pair, contradicting the claim (whose
reading matches the spec's stated intent; the code's own rollback shows
atomicity was intended). -/
theorem import_ndjson_mismatch :
    (ShelfDB.importNDJSON [] c5Lines).state = []
  ∧ (ShelfDB.importNDJSON [] c5Lines).ok = false
  ∧ (ShelfDB.importNDJSON [] c5Lines).journal
      = [JournalEntry.insert "c"
          [("_id", JVal.str "i"), ("_createdAt", JVal.num 0), ("_updatedAt", JVal.num 0)]] :=
  ⟨rfl, rfl, rfl⟩

/-- C6 counterexample: a supplied non-integer limit (2.5, i.e.
`JSNum.fin 5 1`) is accepted and the call succeeds; the claim demands it
fail with InvalidInput — the handler checks only finiteness and sign. -/
theorem pagination_noninteger_cex :
    serverQuery [] "c" ⟨QParse.noQ, some (JSNum.fin 5 1), none, none⟩
      = Except.ok ⟨0, []⟩ := rfl

/-- C6 (amended): offset defaults to 0 and limit to 100; a supplied
`limit`/`offset` is rejected with InvalidInput precisely when it is
non-finite (NaN or an infinity) or negative, before the query engine runs;
a finite non-integer value is accepted (the slice truncates it); on
acceptance the items are the filtered-and-sorted sequence sliced
`[offset, offset + limit)` and the total is the pre-pagination filtered
count. -/
theorem pagination_amended :
    (∀ (s : DBState) (c : String) (p : RawParams) (n : JSNum),
        p.limit = some n → (!n.isFinite || n.ltZero) = true →
        serverQuery s c p = Except.error "Invalid limit")
  ∧ (∀ (s : DBState) (c : String) (p : RawParams) (n : JSNum),
        (∀ m, p.limit = some m → (!m.isFinite || m.ltZero) = false) →
        p.offset = some n → (!n.isFinite || n.ltZero) = true →
        serverQuery s c p = Except.error "Invalid offset")
  ∧ (∀ (s : DBState) (c : String) (p : RawParams),
        (∀ m, p.limit = some m → (!m.isFinite || m.ltZero) = false) →
        (∀ m, p.offset = some m → (!m.isFinite || m.ltZero) = false) →
        serverQuery s c p = Except.ok (ShelfDB.query s c ⟨p.q, p.limit, p.offset, p.sort⟩))
  ∧ (∀ (s : DBState) (c : String) (opts : QueryOpts),
        (ShelfDB.query s c opts).total
          = (((getCol s c).map (fun pr => pr.2)).filter
              (fun dd => filterByQuery dd opts.q)).length)
  ∧ (∀ (s : DBState) (c : String) (opts : QueryOpts),
        (ShelfDB.query s c opts).items
          = jsSlice
              (match parseSort opts.sort with
               | none =>
                 ((getCol s c).map (fun pr => pr.2)).filter (fun dd => filterByQuery dd opts.q)
               | some fd =>
                 sortDocs fd.1 fd.2
                   (((getCol s c).map (fun pr => pr.2)).filter
                     (fun dd => filterByQuery dd opts.q)))
              (opts.offset.getD (JSNum.fin 0 0))
              (jsAdd (opts.offset.getD (JSNum.fin 0 0))
                (opts.limit.getD (JSNum.fin 100 0)))) := by
  have elimFalse : ∀ (o : Option JSNum),
      (∀ m, o = some m → (!m.isFinite || m.ltZero) = false) →
      o.elim false (fun n => (!n.isFinite || n.ltZero)) = false := by
    intro o ho
    cases hpo : o with
    | none => rfl
    | some m => simpa using ho m hpo
  refine ⟨?_, ?_, ?_, fun s c opts => rfl, fun s c opts => rfl⟩
  · intro s c p n hl hbad
    simp [serverQuery, hl, hbad]
  · intro s c p n hlok hoff hbad
    simp [serverQuery, elimFalse p.limit hlok, hoff, hbad]
  · intro s c p hlok hook
    simp [serverQuery, elimFalse p.limit hlok, elimFalse p.offset hook]

/-- Witness for `pagination_amended`: a NaN limit and a negative offset are
rejected; a parameterless call succeeds. -/
theorem pagination_amended_witness :
    serverQuery [] "c" ⟨QParse.noQ, some JSNum.nan, none, none⟩
      = Except.error "Invalid limit"
  ∧ serverQuery [] "c" ⟨QParse.noQ, none, some (JSNum.fin (-1) 0), none⟩
      = Except.error "Invalid offset"
  ∧ serverQuery [] "c" ⟨QParse.noQ, none, none, none⟩
      = Except.ok (ShelfDB.query [] "c" ⟨QParse.noQ, none, none, none⟩) :=
  ⟨pagination_amended.1 [] "c" ⟨QParse.noQ, some JSNum.nan, none, none⟩ JSNum.nan rfl rfl,
   pagination_amended.2.1 [] "c" ⟨QParse.noQ, none, some (JSNum.fin (-1) 0), none⟩
     (JSNum.fin (-1) 0) (fun m hm => Option.noConfusion hm) rfl rfl,
   pagination_amended.2.2.1 [] "c" ⟨QParse.noQ, none, none, none⟩
     (fun m hm => Option.noConfusion hm) (fun m hm => Option.noConfusion hm)⟩
